import Mathlib

/-!
Verification of the JSON-recovery pipeline of the PDF tender-analysis service
(`app/Pdf/llm_service.py`).  The pipeline normalizes the raw text returned by
a generative model (`_clean_json_string`) and then applies a fixed cascade of
five parsing strategies (`_parse_json_safely`); the calling layer
(`generate_proposal`) shapes the outcome into a success or error payload.

Text is embedded as `List Char`.  Python's `json.loads` (strict mode, as the
code calls it) is embedded as an executable recursive-descent parser
`json_loads`.  All definitions are transcribed from the Python source.
-/

namespace PdfAnalysis

/-- Characters treated as whitespace by Python's `str.strip()` (the ASCII and
latin-1 part of `str.isspace()`; the inputs in scope contain no other
whitespace code points). -/
def pyWs (c : Char) : Bool :=
  c.toNat = 9 || c.toNat = 10 || c.toNat = 11 || c.toNat = 12 || c.toNat = 13 ||
  c.toNat = 28 || c.toNat = 29 || c.toNat = 30 || c.toNat = 31 || c.toNat = 32 ||
  c.toNat = 133 || c.toNat = 160

/-- Left part of Python `str.strip()`: drop leading whitespace. -/
def lstrip (t : List Char) : List Char := t.dropWhile pyWs

/-- Right part of Python `str.strip()`: drop trailing whitespace. -/
def rstrip (t : List Char) : List Char := (t.reverse.dropWhile pyWs).reverse

/-- Python `str.strip()` with no arguments. -/
def pstrip (t : List Char) : List Char := rstrip (lstrip t)

/-- Python `text.startswith(p)`. -/
def startswith (p t : List Char) : Bool := List.isPrefixOf p t

/-- Python `text.endswith(p)`. -/
def endswith (p t : List Char) : Bool := List.isPrefixOf p.reverse t.reverse

/-- Python `text[k:]`. -/
def pyDropFront (k : Nat) (t : List Char) : List Char := t.drop k

/-- Python `text[:-k]` for positive `k`. -/
def pyDropEnd (k : Nat) (t : List Char) : List Char := t.take (t.length - k)

/-- Index of the first occurrence of `c`, Python `text.find(c)` (as an
`Option` in place of the `-1` sentinel). -/
def firstIdx (c : Char) : List Char → Option Nat
  | [] => none
  | x :: xs => if x = c then some 0 else (firstIdx c xs).map (· + 1)

/-- Index of the last occurrence of `c`, Python `text.rfind(c)` (as an
`Option` in place of the `-1` sentinel). -/
def lastIdx (c : Char) (t : List Char) : Option Nat :=
  (firstIdx c t.reverse).map (fun i => t.length - 1 - i)

/-- The fence marker `"```json\n"` checked first by `_clean_json_string`. -/
def fenceJsonNl : List Char := ['\x60', '\x60', '\x60', 'j', 's', 'o', 'n', '\n']

/-- The fence marker `"```json"`. -/
def fenceJson : List Char := ['\x60', '\x60', '\x60', 'j', 's', 'o', 'n']

/-- The fence marker `"```\n"`. -/
def fenceNl : List Char := ['\x60', '\x60', '\x60', '\n']

/-- The bare fence marker `"```"`. -/
def fence3 : List Char := ['\x60', '\x60', '\x60']

/-- The trailing fence marker `"\n```"`. -/
def fenceBack4 : List Char := ['\n', '\x60', '\x60', '\x60']

/-- One front-stripping step of the fence-removal loop of
`_clean_json_string` (the `# Remove from start` cascade). -/
def fenceFront (t : List Char) : List Char :=
  if startswith fenceJsonNl t then pstrip (pyDropFront 8 t)
  else if startswith fenceJson t then pstrip (pyDropFront 7 t)
  else if startswith fenceNl t then pstrip (pyDropFront 4 t)
  else if startswith fence3 t then pstrip (pyDropFront 3 t)
  else t

/-- One back-stripping step of the fence-removal loop of
`_clean_json_string` (the `# Remove from end` cascade). -/
def fenceBack (t : List Char) : List Char :=
  if endswith fenceBack4 t then pstrip (pyDropEnd 4 t)
  else if endswith fence3 t then pstrip (pyDropEnd 3 t)
  else t

/-- One full pass of the fence-removal loop: strip from the start, then from
the end. -/
def fenceStep (t : List Char) : List Char := fenceBack (fenceFront t)

/-- The bounded fence-removal loop (`for _ in range(10)` with early `break`
when a pass changes nothing). -/
def fenceLoop : Nat → List Char → List Char
  | 0, t => t
  | n + 1, t =>
    let t2 := fenceStep t
    if t2 = t then t else fenceLoop n t2

/-- The brace-extraction step of `_clean_json_string`: slice from the first
`\x7b` to the last `\x7d` when the first strictly precedes the last. -/
def braceSlice (t : List Char) : List Char :=
  match firstIdx '\x7b' t, lastIdx '\x7d' t with
  | some s, some e => if s < e then (t.drop s).take (e - s + 1) else t
  | _, _ => t

/-- The method `GeminiPDFService._clean_json_string`: strip whitespace, run the bounded
fence-removal loop, slice to the outermost brace span, and strip again. -/
def clean_json_string (t : List Char) : List Char :=
  pstrip (braceSlice (fenceLoop 10 (pstrip t)))

/-- JSON values as produced by Python's `json.loads`.  Objects are key-value
lists built with Python-`dict` insertion semantics (`dictInsert`); number
literals are kept as their source lexeme (the claims only involve integer
literals, whose identity is their lexeme). -/
inductive Json where
  | null : Json
  | bool (b : Bool) : Json
  | num (lit : String) : Json
  | str (s : String) : Json
  | arr (xs : List Json) : Json
  | obj (kvs : List (String × Json)) : Json

/-- Python `k in d` for a dict represented as a key-value list. -/
def dictContains (k : String) (m : List (String × Json)) : Bool :=
  m.any (fun p => p.1 == k)

/-- Python `d[k] = v`: update the value in place if the key is present
(keeping its position), otherwise append the new pair. -/
def dictInsert (m : List (String × Json)) (k : String) (v : Json) :
    List (String × Json) :=
  if dictContains k m then m.map (fun p => if p.1 == k then (p.1, v) else p)
  else m ++ [(k, v)]

/-- Python `d.get(k)`. -/
def dictLookup (k : String) : List (String × Json) → Option Json
  | [] => none
  | (k1, v) :: rest => if k1 = k then some v else dictLookup k rest

/-- Python `d.update(kvs)`: insert each pair of `kvs` in order. -/
def dictUpdate (m : List (String × Json)) (kvs : List (String × Json)) :
    List (String × Json) :=
  kvs.foldl (fun acc kv => dictInsert acc kv.1 kv.2) m

/-- Whitespace skipped by Python's JSON scanner (`' \t\n\r'`). -/
def jsonWs (c : Char) : Bool := c = ' ' || c = '\t' || c = '\n' || c = '\r'

/-- Skip JSON whitespace. -/
def skipWs (t : List Char) : List Char := t.dropWhile jsonWs

/-- Decimal digit test for the JSON number grammar. -/
def isDigitC (c : Char) : Bool := '0' ≤ c && c ≤ '9'

/-- Hexadecimal digit value for `\uXXXX` escapes, by code point: digits
48-57, lowercase 97-102, uppercase 65-70. -/
def hexVal (c : Char) : Option Nat :=
  let n := c.toNat
  if 48 ≤ n && n ≤ 57 then some (n - 48)
  else if 97 ≤ n && n ≤ 102 then some (n - 87)
  else if 65 ≤ n && n ≤ 70 then some (n - 55)
  else none

/-- Body of a JSON string literal after the opening quote, per Python's
`scanstring` in strict mode: unescaped control characters (code point below
32) are rejected, a backslash introduces one of the eight simple escapes or a
`\uXXXX` escape (surrogate pairs are combined; a lone surrogate, which Lean's
`Char` cannot carry, falls back to `Char.ofNat`'s default).  Returns the
decoded characters and the text after the closing quote. -/
def parseStringRest : Nat → List Char → List Char → Option (List Char × List Char)
  | 0, _, _ => none
  | _ + 1, _, [] => none
  | _ + 1, acc, '"' :: rest => some (acc.reverse, rest)
  | f + 1, acc, '\\' :: rest =>
    match rest with
    | [] => none
    | e :: rest2 =>
      if e = '"' then parseStringRest f ('"' :: acc) rest2
      else if e = '\\' then parseStringRest f ('\\' :: acc) rest2
      else if e = '/' then parseStringRest f ('/' :: acc) rest2
      else if e = 'b' then parseStringRest f (Char.ofNat 8 :: acc) rest2
      else if e = 'f' then parseStringRest f (Char.ofNat 12 :: acc) rest2
      else if e = 'n' then parseStringRest f ('\n' :: acc) rest2
      else if e = 'r' then parseStringRest f ('\r' :: acc) rest2
      else if e = 't' then parseStringRest f ('\t' :: acc) rest2
      else if e = 'u' then
        match rest2 with
        | a :: b :: c :: d :: rest3 =>
          match hexVal a, hexVal b, hexVal c, hexVal d with
          | some ha, some hb, some hc, some hd =>
            let n1 := ((ha * 16 + hb) * 16 + hc) * 16 + hd
            if 0xD800 ≤ n1 && n1 < 0xDC00 then
              match rest3 with
              | '\\' :: 'u' :: a2 :: b2 :: c2 :: d2 :: rest4 =>
                match hexVal a2, hexVal b2, hexVal c2, hexVal d2 with
                | some ha2, some hb2, some hc2, some hd2 =>
                  let n2 := ((ha2 * 16 + hb2) * 16 + hc2) * 16 + hd2
                  if 0xDC00 ≤ n2 && n2 < 0xE000 then
                    parseStringRest f
                      (Char.ofNat (0x10000 + (n1 - 0xD800) * 0x400 + (n2 - 0xDC00)) :: acc)
                      rest4
                  else parseStringRest f (Char.ofNat n1 :: acc) rest3
                | _, _, _, _ => parseStringRest f (Char.ofNat n1 :: acc) rest3
              | _ => parseStringRest f (Char.ofNat n1 :: acc) rest3
            else parseStringRest f (Char.ofNat n1 :: acc) rest3
          | _, _, _, _ => none
        | _ => none
      else none
  | f + 1, acc, c :: rest =>
    if c.toNat < 32 then none else parseStringRest f (c :: acc) rest

/-- Parse a JSON string literal body (after the opening quote); the fuel
`t.length + 1` can never run out since every step consumes a character. -/
def parseString (t : List Char) : Option (List Char × List Char) :=
  parseStringRest (t.length + 1) [] t

/-- Integer part of the JSON number grammar `(0|[1-9][0-9]*)`. -/
def parseIntPart : List Char → Option (List Char × List Char)
  | [] => none
  | c :: rest =>
    if c = '0' then some (['0'], rest)
    else if isDigitC c then
      some (c :: rest.takeWhile isDigitC, rest.dropWhile isDigitC)
    else none

/-- Optional fraction part `(\.[0-9]+)?` of the JSON number grammar; returns
the matched lexeme (possibly empty) and the rest. -/
def parseFracPart : List Char → List Char × List Char
  | '.' :: rest =>
    match rest.takeWhile isDigitC with
    | [] => ([], '.' :: rest)
    | ds => ('.' :: ds, rest.dropWhile isDigitC)
  | t => ([], t)

/-- Optional exponent part `([eE][-+]?[0-9]+)?` of the JSON number grammar. -/
def parseExpPart : List Char → List Char × List Char
  | e :: rest =>
    if e = 'e' || e = 'E' then
      match rest with
      | s :: rest2 =>
        if s = '+' || s = '-' then
          match rest2.takeWhile isDigitC with
          | [] => ([], e :: s :: rest2)
          | ds => (e :: s :: ds, rest2.dropWhile isDigitC)
        else
          match rest.takeWhile isDigitC with
          | [] => ([], e :: rest)
          | ds => (e :: ds, rest.dropWhile isDigitC)
      | [] => ([], [e])
    else ([], e :: rest)
  | [] => ([], [])

/-- JSON number lexeme per Python's `NUMBER_RE`
`(-?(?:0|[1-9]\d*))(\.\d+)?([eE][-+]?\d+)?`. -/
def parseNumber (t : List Char) : Option (List Char × List Char) :=
  match t with
  | '-' :: rest =>
    match parseIntPart rest with
    | some (ip, r) =>
      let fr := parseFracPart r
      let ex := parseExpPart fr.2
      some ('-' :: (ip ++ fr.1 ++ ex.1), ex.2)
    | none => none
  | _ =>
    match parseIntPart t with
    | some (ip, r) =>
      let fr := parseFracPart r
      let ex := parseExpPart fr.2
      some (ip ++ fr.1 ++ ex.1, ex.2)
    | none => none

/-- Literal `null`. -/
def litNull : List Char := ['n', 'u', 'l', 'l']

/-- Literal `true`. -/
def litTrue : List Char := ['t', 'r', 'u', 'e']

/-- Literal `false`. -/
def litFalse : List Char := ['f', 'a', 'l', 's', 'e']

/-- Literal `NaN` (accepted by Python's `json.loads` by default). -/
def litNaN : List Char := ['N', 'a', 'N']

/-- Literal `Infinity`. -/
def litInf : List Char := ['I', 'n', 'f', 'i', 'n', 'i', 't', 'y']

/-- Literal `-Infinity`. -/
def litNegInf : List Char := ['-', 'I', 'n', 'f', 'i', 'n', 'i', 't', 'y']

mutual

/-- One JSON value at the head of the text, per Python's `scan_once`: a
string, object, array, one of the literals, a number, or one of the
non-finite constants, in that order.  Fuel only bounds nesting; `json_loads`
supplies enough for any input. -/
def parseValue : Nat → List Char → Option (Json × List Char)
  | 0, _ => none
  | f + 1, t =>
    match t with
    | [] => none
    | c :: rest =>
      if c = '"' then
        match parseString rest with
        | some (cs, r) => some (.str (String.mk cs), r)
        | none => none
      else if c = '\x7b' then parseObjBody f (skipWs rest)
      else if c = '[' then parseArrBody f (skipWs rest)
      else if startswith litNull t then some (.null, t.drop 4)
      else if startswith litTrue t then some (.bool true, t.drop 4)
      else if startswith litFalse t then some (.bool false, t.drop 5)
      else
        match parseNumber t with
        | some (lex, r) => some (.num (String.mk lex), r)
        | none =>
          if startswith litNaN t then some (.num "NaN", t.drop 3)
          else if startswith litInf t then some (.num "Infinity", t.drop 8)
          else if startswith litNegInf t then some (.num "-Infinity", t.drop 9)
          else none

/-- Object body after `\x7b` and whitespace: either an immediate `\x7d`
(empty object) or a member list, per Python's `JSONObject`. -/
def parseObjBody : Nat → List Char → Option (Json × List Char)
  | 0, _ => none
  | f + 1, t =>
    match t with
    | '\x7d' :: rest => some (.obj [], rest)
    | _ => parseMembers f t []

/-- Members of an object, starting at a key quote: `"key" ws : ws value ws`
then `\x7d` to finish or `,` ws to continue.  The accumulator uses
`dictInsert` (Python `dict` building, last duplicate wins). -/
def parseMembers : Nat → List Char → List (String × Json) →
    Option (Json × List Char)
  | 0, _, _ => none
  | f + 1, t, acc =>
    match t with
    | '"' :: rest =>
      match parseString rest with
      | none => none
      | some (k, r1) =>
        match skipWs r1 with
        | ':' :: r2 =>
          match parseValue f (skipWs r2) with
          | none => none
          | some (v, r3) =>
            let acc2 := dictInsert acc (String.mk k) v
            match skipWs r3 with
            | '\x7d' :: r4 => some (.obj acc2, r4)
            | ',' :: r4 => parseMembers f (skipWs r4) acc2
            | _ => none
        | _ => none
    | _ => none

/-- Array body after `[` and whitespace: either an immediate `]` (empty
array) or an element list, per Python's `JSONArray`. -/
def parseArrBody : Nat → List Char → Option (Json × List Char)
  | 0, _ => none
  | f + 1, t =>
    match t with
    | ']' :: rest => some (.arr [], rest)
    | _ => parseElems f t []

/-- Elements of an array: value ws, then `]` to finish or `,` ws to
continue. -/
def parseElems : Nat → List Char → List Json → Option (Json × List Char)
  | 0, _, _ => none
  | f + 1, t, acc =>
    match parseValue f t with
    | none => none
    | some (v, r) =>
      match skipWs r with
      | ']' :: r2 => some (.arr (acc ++ [v]), r2)
      | ',' :: r2 => parseElems f (skipWs r2) (acc ++ [v])
      | _ => none

end

/-- Python `json.loads` in its default (strict) configuration: skip leading
whitespace, scan one value, skip trailing whitespace, and reject any extra
data.  The fuel `4 * length + 4` cannot run out: every unit of nesting or
iteration consumes at least one character. -/
def json_loads (t : List Char) : Option Json :=
  let t1 := skipWs t
  match parseValue (4 * t1.length + 4) t1 with
  | some (v, rest) => if skipWs rest = [] then some v else none
  | none => none

mutual

/-- The out-of-string state of strategy 3's `escape_newlines_in_strings`
scanner: characters pass through; a quote enters string state. -/
def escNlOut : List Char → List Char
  | [] => []
  | '"' :: rest => '"' :: escNlIn rest
  | c :: rest => c :: escNlOut rest

/-- The in-string state of strategy 3's scanner: a backslash keeps itself
and the following character, a quote closes the string, raw newline /
carriage return / tab become their two-character escapes, everything else
passes through. -/
def escNlIn : List Char → List Char
  | [] => []
  | '\\' :: rest =>
    match rest with
    | [] => ['\\']
    | c :: rest2 => '\\' :: c :: escNlIn rest2
  | '"' :: rest => '"' :: escNlOut rest
  | '\n' :: rest => '\\' :: 'n' :: escNlIn rest
  | '\r' :: rest => '\\' :: 'r' :: escNlIn rest
  | '\t' :: rest => '\\' :: 't' :: escNlIn rest
  | c :: rest => c :: escNlIn rest

end

/-- Strategy 3's `escape_newlines_in_strings`: escape raw newline, carriage
return and tab bytes inside string literals only. -/
def escape_newlines_in_strings (t : List Char) : List Char := escNlOut t

/-- Strategy 4's counting loop: net `\x7b`/`\x7d` and `[`/`]` counts outside
string literals, where a backslash skips the next character and a quote
toggles the in-string state. -/
def countOpens : Bool → Int → Int → List Char → Int × Int
  | _, braces, brackets, [] => (braces, brackets)
  | inStr, braces, brackets, '\\' :: rest =>
    match rest with
    | [] => (braces, brackets)
    | _ :: rest2 => countOpens inStr braces brackets rest2
  | inStr, braces, brackets, '"' :: rest => countOpens (!inStr) braces brackets rest
  | inStr, braces, brackets, c :: rest =>
    if inStr then countOpens inStr braces brackets rest
    else if c = '\x7b' then countOpens inStr (braces + 1) brackets rest
    else if c = '\x7d' then countOpens inStr (braces - 1) brackets rest
    else if c = '[' then countOpens inStr braces (brackets + 1) rest
    else if c = ']' then countOpens inStr braces (brackets - 1) rest
    else countOpens inStr braces brackets rest

/-- Strategy 4 of `_parse_json_safely`: when the cleaned text has unclosed
braces or brackets, append that many closing braces, then that many closing
brackets, and try to parse; otherwise yield nothing. -/
def strategy4 (cleaned : List Char) : Option Json :=
  let bc := countOpens false 0 0 cleaned
  if bc.1 > 0 ∨ bc.2 > 0 then
    json_loads (cleaned ++ List.replicate bc.1.toNat '\x7d' ++
      List.replicate bc.2.toNat ']')
  else none

/-- Strategy 5's scanning loop: split the text into top-level spans closed
when the brace depth returns to zero, parse each accumulated span, and
collect the spans that parse (the accumulator is kept on a failed parse,
exactly as the Python `except: pass` does). -/
def scan5 (inStr : Bool) (depth : Int) (cur : List Char) (objs : List Json) :
    List Char → List Json
  | [] => objs
  | '\\' :: rest =>
    match rest with
    | [] => objs
    | c :: rest2 => scan5 inStr depth (cur ++ ['\\', c]) objs rest2
  | '"' :: rest => scan5 (!inStr) depth (cur ++ ['"']) objs rest
  | c :: rest =>
    if inStr then scan5 inStr depth (cur ++ [c]) objs rest
    else if c = '\x7b' then scan5 inStr (depth + 1) (cur ++ [c]) objs rest
    else if c = '\x7d' then
      let cur2 := cur ++ [c]
      let depth2 := depth - 1
      if depth2 = 0 ∧ pstrip cur2 ≠ [] then
        match json_loads cur2 with
        | some v => scan5 inStr depth2 [] (objs ++ [v]) rest
        | none => scan5 inStr depth2 cur2 objs rest
      else scan5 inStr depth2 cur2 objs rest
    else scan5 inStr depth (cur ++ [c]) objs rest

/-- The merged mapping of strategy 5: fold the parsed spans left to right,
merging those that are mappings with `merged.update(obj)` (keys from
later-parsed spans overwrite same-named earlier keys). -/
def mergedSpans (cleaned : List Char) : List (String × Json) :=
  (scan5 false 0 [] [] cleaned).foldl
    (fun m o => match o with | .obj kvs => dictUpdate m kvs | _ => m) []

/-- Strategy 5 of `_parse_json_safely`: if any top-level span parsed, merge
the spans that are mappings with last-write-wins (`merged.update(obj)`); the
merge is returned only when it is non-empty (the Python `if merged:` check). -/
def strategy5 (cleaned : List Char) : Option Json :=
  if (scan5 false 0 [] [] cleaned).isEmpty then none
  else if (mergedSpans cleaned).isEmpty then none
  else some (.obj (mergedSpans cleaned))

/-- The method `GeminiPDFService._parse_json_safely`: the five-strategy cascade.  A
`some` result is a successful decode; `none` models the terminal
`ValueError` raised when every strategy fails. -/
def parse_json_safely (t : List Char) : Option Json :=
  match json_loads t with
  | some v => some v
  | none =>
    let cleaned := clean_json_string t
    match json_loads cleaned with
    | some v => some v
    | none =>
      match json_loads (escape_newlines_in_strings cleaned) with
      | some v => some v
      | none =>
        match strategy4 cleaned with
        | some v => some v
        | none => strategy5 cleaned

/-- The six required fields checked by `generate_proposal`. -/
def required_fields : List String :=
  ["document_overview", "title_page", "executive_summary",
   "key_dates_and_rules", "compliance_matrix", "technical_approach"]

/-- Python `missing_fields = [f for f in required_fields if f not in proposal_data]`. -/
def missingFields (d : List (String × Json)) : List String :=
  required_fields.filter (fun f => !dictContains f d)

/-- Python `len(value.split())`: the number of maximal runs of
non-whitespace characters. -/
def wordCountStr (s : String) : Nat :=
  ((s.toList.splitOnP pyWs).filter (fun w => w ≠ [])).length

/-- The word-count loop of `generate_proposal`: strings count their words,
lists count the words of their string items, everything else is skipped. -/
def wordCount (d : List (String × Json)) : Nat :=
  d.foldl
    (fun acc kv =>
      match kv.2 with
      | .str s => acc + wordCountStr s
      | .arr items =>
        acc + (items.foldl
          (fun a it => match it with | .str s => a + wordCountStr s | _ => a) 0)
      | _ => acc)
    0

/-- The `estimated_pages` f-string of `generate_proposal`. -/
def estPages (total : Nat) : String :=
  let lo := max 15 (min 20 (total / 600))
  let hi := max 16 (min 22 (total / 500))
  s!"{lo}-{hi}"

/-- The success-path bookkeeping of `generate_proposal` after a decode
succeeds (with no supporting documents): the `_warnings` entry when required
fields are missing, then `status`, `message`, `generated_at` (the
`datetime.now().isoformat()` value is passed in as `now`), the word count
and the estimated pages. -/
def finalizeSuccess (now : String) (d : List (String × Json)) :
    List (String × Json) :=
  let d1 :=
    if missingFields d ≠ [] then
      dictInsert d "_warnings" (.obj
        [("missing_fields", .arr ((missingFields d).map .str)),
         ("message", .str "Some required sections are missing from the generated proposal")])
    else d
  let d2 := dictInsert d1 "status" (.str "success")
  let d3 := dictInsert d2 "message" (.str "Proposal generated successfully")
  let d4 := dictInsert d3 "generated_at" (.str now)
  let total := wordCount d4
  let d5 := dictInsert d4 "actual_word_count" (.num (toString total))
  let d6 := dictInsert d5 "estimated_pages" (.str (estPages total))
  d6

/-- The diagnostic `debug_info` of the `json_parse_error` branch of
`generate_proposal`. -/
structure DebugInfo where
  response_length : Nat
  starts_with : List Char
  ends_with : List Char
deriving DecidableEq

/-- Outcome of `generate_proposal` after the model response text is in hand:
a success mapping, the structured `json_parse_error` payload when every
decode strategy failed, or the generic error branch of the outer `except`
(reached e.g. when the decoded value is not a mapping and the subsequent
item assignment raises `TypeError`). -/
inductive ProposalResult where
  | success (doc : List (String × Json))
  | jsonParseError (raw_response : List Char) (message error_details suggestion : String)
      (debug : DebugInfo)
  | genericError (error_type : String)

/-- The response-handling tail of `generate_proposal`, a function of the
stripped model response text `report_text`: decode via
`_parse_json_safely`; on failure build the bounded `json_parse_error`
payload (`raw_response: report_text[:2000]`, `starts_with:
report_text[:100]`, `ends_with: report_text[-100:]`); on success run the
bookkeeping; a non-mapping decode result ends in the outer `except` branch. -/
def generate_proposal_postparse (now : String) (report_text : List Char) :
    ProposalResult :=
  match parse_json_safely report_text with
  | none =>
    .jsonParseError (report_text.take 2000)
      "Failed to parse AI response as valid JSON after multiple attempts."
      "All JSON parsing strategies failed"
      "The AI model generated malformed JSON. Please try again or use a smaller PDF."
      ⟨report_text.length, report_text.take 100,
       report_text.drop (report_text.length - 100)⟩
  | some (.obj d) => .success (finalizeSuccess now d)
  | some _ => .genericError "TypeError"

/-! Claim C9: a strict valid JSON object decodes directly. -/

/-- C9: for every input text that is already a strict valid JSON object,
`decode` returns the mapping denoted by that text unchanged — the
direct-parse strategy (strategy 1, plain `json.loads` on the raw text) wins
and its result is the final result. -/
theorem c9_direct_parse (t : List Char) (kvs : List (String × Json))
    (h : json_loads t = some (Json.obj kvs)) :
    parse_json_safely t = some (Json.obj kvs) := by
  simp [parse_json_safely, h]

/-- Witness for C9 at the input `\x7b"a": 1\x7d`. -/
theorem c9_direct_parse_witness :
    parse_json_safely "\x7b\"a\": 1\x7d".toList =
      some (Json.obj [("a", Json.num "1")]) :=
  c9_direct_parse _ _ rfl

/-! Claim C5: strategy 3 escapes raw newline/CR/tab bytes inside string
literals, after which decoding succeeds. -/

/-- C5: an input on which direct parsing and normalized parsing fail but
whose strategy-3 rewrite (`escape_newlines_in_strings`, the in-string
newline/CR/tab escaper) parses, decodes to that parse. -/
theorem c5_escape_newlines (t : List Char) (v : Json)
    (h1 : json_loads t = none)
    (h2 : json_loads (clean_json_string t) = none)
    (h3 : json_loads (escape_newlines_in_strings (clean_json_string t)) = some v) :
    parse_json_safely t = some v := by
  simp [parse_json_safely, h1, h2, h3]

/-- Witness for C5 at the spec's example `\x7b"a": "line1<raw LF>line2"\x7d`
(a real newline byte inside the string literal): the decoded value of key
`a` is the single string containing a newline character, and the rewrite
produced the two-character escape inside the string literal only. -/
theorem c5_escape_newlines_witness :
    parse_json_safely "\x7b\"a\": \"line1\nline2\"\x7d".toList =
      some (Json.obj [("a", Json.str "line1\nline2")]) ∧
    escape_newlines_in_strings
        (clean_json_string "\x7b\"a\": \"line1\nline2\"\x7d".toList) =
      "\x7b\"a\": \"line1\\nline2\"\x7d".toList :=
  ⟨c5_escape_newlines _ _ rfl rfl rfl, rfl⟩

/-! Claim C2: the multi-object-merge strategy. -/

/-- C2 counterexample: for the input `\x7b\x7d\x7b\x7d` both top-level spans
parse as JSON objects, yet `decode` fails — the merged mapping is empty and
the Python `if merged:` truthiness check rejects it, so the claim "if at
least one span parses as a JSON object then decode returns the merge of all
parsed spans" is false at this input. -/
theorem c2_counterexample :
    scan5 false 0 [] [] (clean_json_string "\x7b\x7d\x7b\x7d".toList) =
      [Json.obj [], Json.obj []] ∧
    parse_json_safely "\x7b\x7d\x7b\x7d".toList = none :=
  ⟨rfl, rfl⟩

/-- C2 (amended): when strategies 1-4 fail and the last-write-wins merge of
the parsed top-level spans is non-empty, `decode` returns exactly that
merged mapping. -/
theorem c2_multi_object_merge (t : List Char)
    (h1 : json_loads t = none)
    (h2 : json_loads (clean_json_string t) = none)
    (h3 : json_loads (escape_newlines_in_strings (clean_json_string t)) = none)
    (h4 : strategy4 (clean_json_string t) = none)
    (h5 : mergedSpans (clean_json_string t) ≠ []) :
    parse_json_safely t = some (Json.obj (mergedSpans (clean_json_string t))) := by
  have hscan : ¬(scan5 false 0 [] [] (clean_json_string t)).isEmpty = true := by
    intro he
    apply h5
    rw [List.isEmpty_iff] at he
    simp [mergedSpans, he]
  simp [parse_json_safely, h1, h2, h3, h4, strategy5, hscan,
    List.isEmpty_iff, h5]

/-- Witness for C2 at the spec's example `\x7b"a": 1\x7d\x7b"b": 2\x7d`:
the two spans merge to `\x7b"a": 1, "b": 2\x7d`. -/
theorem c2_multi_object_merge_witness :
    mergedSpans (clean_json_string "\x7b\"a\": 1\x7d\x7b\"b\": 2\x7d".toList) =
      [("a", Json.num "1"), ("b", Json.num "2")] ∧
    parse_json_safely "\x7b\"a\": 1\x7d\x7b\"b\": 2\x7d".toList =
      some (Json.obj [("a", Json.num "1"), ("b", Json.num "2")]) := by
  refine ⟨rfl, ?_⟩
  have h := c2_multi_object_merge "\x7b\"a\": 1\x7d\x7b\"b\": 2\x7d".toList
    rfl rfl rfl rfl (by intro h; exact List.noConfusion (rfl.trans h))
  exact h

/-! Claim C1: the truncation-repair strategy. -/

/-- The truncated input of claim C1, `\x7b"a": [1, 2, \x7b"b": 3` (two
unclosed braces, one unclosed bracket). -/
def exC1 : List Char := "\x7b\"a\": [1, 2, \x7b\"b\": 3".toList

/-- C1 counterexample: on the spec's truncated example, `decode` fails
outright (returns the terminal failure, modeled as `none`) instead of
recovering `\x7b"a": [1, 2, \x7b"b": 3\x7d]\x7d` as the claim states. -/
theorem c1_counterexample : parse_json_safely exC1 = none := rfl

/-- C1 (amended): the truncation-repair strategy counts two unclosed braces
and one unclosed bracket on the example, but appends all closing braces
before all closing brackets, producing `...3\x7d\x7d]`, which is not valid
JSON, so the strategy and the whole decode fail on this input; the repair
does succeed when the unclosed brackets are not nested inside unclosed
braces (e.g. the pure-brace truncation `\x7b"a": \x7b"b": 3` recovers
`\x7b"a": \x7b"b": 3\x7d\x7d`). -/
theorem c1_truncation_amended :
    countOpens false 0 0 exC1 = (2, 1) ∧
    strategy4 exC1 = json_loads (exC1 ++ "\x7d\x7d]".toList) ∧
    json_loads (exC1 ++ "\x7d\x7d]".toList) = none ∧
    parse_json_safely exC1 = none ∧
    parse_json_safely "\x7b\"a\": \x7b\"b\": 3".toList =
      some (Json.obj [("a", Json.obj [("b", Json.num "3")])]) :=
  ⟨rfl, rfl, rfl, rfl, rfl⟩

/-! Claim C3: control-character removal. -/

/-- C3: the normalizer does not remove control characters at all — on the
input `\x7b<U+0001>\x7d` the output of `_clean_json_string` still contains
the control character `U+0001` (code point 1, which is below 32 and is none
of tab, line feed, carriage return), contradicting both the claim and the
function's own docstring ("Handles control characters"). -/
theorem c3_control_char_not_removed :
    clean_json_string ['\x7b', '\x01', '\x7d'] = ['\x7b', '\x01', '\x7d'] ∧
    '\x01' ∈ clean_json_string ['\x7b', '\x01', '\x7d'] ∧
    '\x01'.toNat < 32 ∧
    '\x01'.toNat ≠ 9 ∧ '\x01'.toNat ≠ 10 ∧ '\x01'.toNat ≠ 13 := by
  exact ⟨rfl, by decide, by decide, by decide, by decide, by decide⟩

/-! Claim C4: the terminal-failure diagnostic. -/

/-- C4: when every decode strategy fails, the calling layer returns the
structured `json_parse_error` payload (never an uncaught fault): its
diagnostic carries the total response length, the first 100 characters and
the last 100 characters of the input text, and every text field of the
diagnostic is bounded by a constant (100, 100 and 2000 characters
respectively) regardless of the input length. -/
theorem c4_failure_diagnostic (now : String) (t : List Char)
    (h : parse_json_safely t = none) :
    generate_proposal_postparse now t =
      .jsonParseError (t.take 2000)
        "Failed to parse AI response as valid JSON after multiple attempts."
        "All JSON parsing strategies failed"
        "The AI model generated malformed JSON. Please try again or use a smaller PDF."
        ⟨t.length, t.take 100, t.drop (t.length - 100)⟩ ∧
    (t.take 100).length ≤ 100 ∧
    (t.drop (t.length - 100)).length ≤ 100 ∧
    (t.take 2000).length ≤ 2000 := by
  refine ⟨by simp [generate_proposal_postparse, h], ?_, ?_, ?_⟩
  · simp [List.length_take]
  · simp [List.length_drop]
    omega
  · simp [List.length_take]

/-- Witness for C4 at a pure-prose input containing no brace at all: decode
fails, and the diagnostic prefix is the whole (short) input. -/
theorem c4_failure_diagnostic_witness :
    generate_proposal_postparse "T" "Hello world, plain prose.".toList =
      .jsonParseError ("Hello world, plain prose.".toList.take 2000)
        "Failed to parse AI response as valid JSON after multiple attempts."
        "All JSON parsing strategies failed"
        "The AI model generated malformed JSON. Please try again or use a smaller PDF."
        ⟨"Hello world, plain prose.".toList.length,
         "Hello world, plain prose.".toList.take 100,
         "Hello world, plain prose.".toList.drop
           ("Hello world, plain prose.".toList.length - 100)⟩ :=
  (c4_failure_diagnostic "T" "Hello world, plain prose.".toList rfl).1

/-! Helper lemmas about the Python string primitives, used for the general
normalizer theorems (claims C6, C7, C8). -/

/-- Lists whose characters are neither `\x7b` nor `\x7d`. -/
def BraceFreeP (t : List Char) : Prop := ∀ c ∈ t, c ≠ '\x7b' ∧ c ≠ '\x7d'

instance : DecidablePred BraceFreeP := fun t =>
  List.decidableBAll (fun c => c ≠ '\x7b' ∧ c ≠ '\x7d') t

theorem braceFreeP_of_subset {s t : List Char} (h : s ⊆ t) (ht : BraceFreeP t) :
    BraceFreeP s := fun c hc => ht c (h hc)

theorem lstrip_cons_not {c : Char} (cs : List Char) (h : pyWs c = false) :
    lstrip (c :: cs) = c :: cs := by
  simp [lstrip, List.dropWhile_cons, h]

theorem lstrip_append (a : List Char) {rest : List Char}
    (h : ∀ c, rest.head? = some c → pyWs c = false) :
    lstrip (a ++ rest) = lstrip a ++ rest := by
  induction a with
  | nil =>
    cases rest with
    | nil => rfl
    | cons c cs => simpa [lstrip] using lstrip_cons_not cs (h c rfl)
  | cons x a2 ih =>
    by_cases hx : pyWs x
    · simp [lstrip, List.dropWhile_cons, hx] at ih ⊢
      exact ih
    · simp [lstrip, List.dropWhile_cons, hx]

theorem lstrip_subset (t : List Char) : lstrip t ⊆ t := by
  induction t with
  | nil => simp [lstrip]
  | cons c cs ih =>
    by_cases h : pyWs c
    · simp only [lstrip, List.dropWhile_cons, h, if_true] at ih ⊢
      exact fun x hx => List.mem_cons_of_mem c (ih hx)
    · simp [lstrip, List.dropWhile_cons, h]

theorem dropWhile_append_of_head_not {a rest : List Char}
    (h : ∀ c, rest.head? = some c → pyWs c = false) :
    (a ++ rest).dropWhile pyWs = a.dropWhile pyWs ++ rest := by
  have := lstrip_append a h
  simpa [lstrip] using this

theorem rstrip_append (x : List Char) {b : List Char}
    (h : ∀ c, x.getLast? = some c → pyWs c = false) :
    rstrip (x ++ b) = x ++ rstrip b := by
  unfold rstrip
  rw [List.reverse_append]
  rw [dropWhile_append_of_head_not (by
    intro c hc
    rw [List.head?_reverse] at hc
    exact h c hc)]
  rw [List.reverse_append, List.reverse_reverse]

theorem rstrip_noop (x : List Char)
    (h : ∀ c, x.getLast? = some c → pyWs c = false) : rstrip x = x := by
  have h2 := @rstrip_append x [] h
  simpa [rstrip] using h2

theorem lstrip_noop (x : List Char)
    (h : ∀ c, x.head? = some c → pyWs c = false) : lstrip x = x := by
  cases x with
  | nil => rfl
  | cons c cs => exact lstrip_cons_not cs (h c rfl)

theorem rstrip_subset (t : List Char) : rstrip t ⊆ t := by
  intro x hx
  unfold rstrip at hx
  rw [List.mem_reverse] at hx
  have := lstrip_subset t.reverse (by simpa [lstrip] using hx)
  rwa [List.mem_reverse] at this

theorem pstrip_core (a j b : List Char)
    (hj1 : j.head? = some '\x7b') (hj2 : j.getLast? = some '\x7d') :
    pstrip (a ++ (j ++ b)) = lstrip a ++ (j ++ rstrip b) := by
  have hjne : j ≠ [] := by cases j <;> simp_all
  have h1 : lstrip (a ++ (j ++ b)) = lstrip a ++ (j ++ b) := by
    apply lstrip_append
    intro c hc
    rw [List.head?_append_of_ne_nil _ hjne] at hc
    rw [hj1] at hc
    cases hc
    decide
  have h2 : rstrip ((lstrip a ++ j) ++ b) = (lstrip a ++ j) ++ rstrip b := by
    apply rstrip_append
    intro c hc
    rw [List.getLast?_append_of_ne_nil _ hjne, hj2] at hc
    cases hc
    decide
  rw [pstrip, h1, ← List.append_assoc, h2, List.append_assoc]

theorem head?_append_left {α : Type} {l : List α} (l2 : List α) (h : l ≠ []) :
    (l ++ l2).head? = l.head? := by
  cases l with
  | nil => exact absurd rfl h
  | cons c cs => simp

theorem head?_mem {α : Type} {l : List α} {c : α} (h : l.head? = some c) :
    c ∈ l := by
  cases l with
  | nil => cases h
  | cons d cs => cases h; simp

theorem prefix_core_length {x : Char} {pat a j b : List Char}
    (hpat : ∀ c ∈ pat, c ≠ x) (hj : j.head? = some x)
    (h : startswith pat (a ++ (j ++ b)) = true) : pat.length ≤ a.length := by
  by_contra hlt
  push_neg at hlt
  rw [startswith, List.isPrefixOf_iff_prefix] at h
  obtain ⟨s, hs⟩ := h
  have hd : (pat ++ s).drop a.length = pat.drop a.length ++ s :=
    List.drop_append_of_le_length (le_of_lt hlt)
  rw [hs, List.drop_left] at hd
  have hne : pat.drop a.length ≠ [] := by
    intro hn
    have hlen := congrArg List.length hn
    simp only [List.length_drop, List.length_nil] at hlen
    omega
  have hjne : j ≠ [] := by cases j <;> simp_all
  have h1 : (j ++ b).head? = some x := by rw [head?_append_left b hjne, hj]
  rw [hd, head?_append_left s hne] at h1
  exact (hpat _ (List.drop_subset _ _ (head?_mem h1))) rfl

theorem strip_drop_core {j : List Char} (hj : j.head? = some '\x7b')
    (hjl : j.getLast? = some '\x7d') (a b : List Char)
    (ha : BraceFreeP a) (hb : BraceFreeP b) (k : Nat) (hk : k ≤ a.length) :
    pstrip (pyDropFront k (a ++ (j ++ b))) =
      lstrip (a.drop k) ++ (j ++ rstrip b) ∧
    BraceFreeP (lstrip (a.drop k)) ∧ BraceFreeP (rstrip b) := by
  refine ⟨?_, ?_, ?_⟩
  · rw [pyDropFront, List.drop_append_of_le_length hk]
    exact pstrip_core (a.drop k) j b hj hjl
  · exact braceFreeP_of_subset
      (fun c hc => List.drop_subset _ _ (lstrip_subset _ hc)) ha
  · exact braceFreeP_of_subset (rstrip_subset b) hb

theorem take_end_core {j : List Char} (hj : j.head? = some '\x7b')
    (hjl : j.getLast? = some '\x7d') (a b : List Char)
    (ha : BraceFreeP a) (hb : BraceFreeP b) (k : Nat) (hk : k ≤ b.length) :
    pstrip (pyDropEnd k (a ++ (j ++ b))) =
      lstrip a ++ (j ++ rstrip (b.take (b.length - k))) ∧
    BraceFreeP (lstrip a) ∧ BraceFreeP (rstrip (b.take (b.length - k))) := by
  refine ⟨?_, ?_, ?_⟩
  · rw [pyDropEnd]
    rw [show (a ++ (j ++ b)).length - k =
        a.length + (j.length + (b.length - k)) from by
      simp only [List.length_append]
      omega]
    rw [List.take_append, List.take_append]
    exact pstrip_core a j (b.take (b.length - k)) hj hjl
  · exact braceFreeP_of_subset (lstrip_subset a) ha
  · exact braceFreeP_of_subset
      (fun c hc => List.take_subset _ _ (rstrip_subset _ hc)) hb

theorem fenceFront_core {j : List Char} (hj : j.head? = some '\x7b')
    (hjl : j.getLast? = some '\x7d') (a b : List Char)
    (ha : BraceFreeP a) (hb : BraceFreeP b) :
    ∃ a2 b2, fenceFront (a ++ (j ++ b)) = a2 ++ (j ++ b2) ∧
      BraceFreeP a2 ∧ BraceFreeP b2 := by
  unfold fenceFront
  by_cases h8 : startswith fenceJsonNl (a ++ (j ++ b)) = true
  · have hk : 8 ≤ a.length := prefix_core_length (by decide) hj h8
    obtain ⟨he, h1, h2⟩ := strip_drop_core hj hjl a b ha hb 8 hk
    exact ⟨_, _, by rw [if_pos h8, he], h1, h2⟩
  · rw [if_neg h8]
    by_cases h7 : startswith fenceJson (a ++ (j ++ b)) = true
    · have hk : 7 ≤ a.length := prefix_core_length (by decide) hj h7
      obtain ⟨he, h1, h2⟩ := strip_drop_core hj hjl a b ha hb 7 hk
      exact ⟨_, _, by rw [if_pos h7, he], h1, h2⟩
    · rw [if_neg h7]
      by_cases h4 : startswith fenceNl (a ++ (j ++ b)) = true
      · have hk : 4 ≤ a.length := prefix_core_length (by decide) hj h4
        obtain ⟨he, h1, h2⟩ := strip_drop_core hj hjl a b ha hb 4 hk
        exact ⟨_, _, by rw [if_pos h4, he], h1, h2⟩
      · rw [if_neg h4]
        by_cases h3 : startswith fence3 (a ++ (j ++ b)) = true
        · have hk : 3 ≤ a.length := prefix_core_length (by decide) hj h3
          obtain ⟨he, h1, h2⟩ := strip_drop_core hj hjl a b ha hb 3 hk
          exact ⟨_, _, by rw [if_pos h3, he], h1, h2⟩
        · rw [if_neg h3]
          exact ⟨a, b, rfl, ha, hb⟩

theorem endswith_core_length {pat : List Char} {a j b : List Char}
    (hpat : ∀ c ∈ pat, c ≠ '\x7d') (hjl : j.getLast? = some '\x7d')
    (h : endswith pat (a ++ (j ++ b)) = true) : pat.length ≤ b.length := by
  rw [endswith] at h
  have hrev : (a ++ (j ++ b)).reverse =
      b.reverse ++ (j.reverse ++ a.reverse) := by
    simp [List.reverse_append]
  rw [hrev] at h
  have hjr : j.reverse.head? = some '\x7d' := by
    rw [List.head?_reverse]; exact hjl
  have := @prefix_core_length '\x7d' pat.reverse b.reverse j.reverse a.reverse
    (fun c hc => hpat c (List.mem_reverse.mp hc)) hjr h
  simpa using this

theorem fenceBack_core {j : List Char} (hj : j.head? = some '\x7b')
    (hjl : j.getLast? = some '\x7d') (a b : List Char)
    (ha : BraceFreeP a) (hb : BraceFreeP b) :
    ∃ a2 b2, fenceBack (a ++ (j ++ b)) = a2 ++ (j ++ b2) ∧
      BraceFreeP a2 ∧ BraceFreeP b2 := by
  unfold fenceBack
  by_cases h4 : endswith fenceBack4 (a ++ (j ++ b)) = true
  · have hk : 4 ≤ b.length := endswith_core_length (by decide) hjl h4
    obtain ⟨he, h1, h2⟩ := take_end_core hj hjl a b ha hb 4 hk
    exact ⟨_, _, by rw [if_pos h4, he], h1, h2⟩
  · rw [if_neg h4]
    by_cases h3 : endswith fence3 (a ++ (j ++ b)) = true
    · have hk : 3 ≤ b.length := endswith_core_length (by decide) hjl h3
      obtain ⟨he, h1, h2⟩ := take_end_core hj hjl a b ha hb 3 hk
      exact ⟨_, _, by rw [if_pos h3, he], h1, h2⟩
    · rw [if_neg h3]
      exact ⟨a, b, rfl, ha, hb⟩

theorem fenceStep_core {j : List Char} (hj : j.head? = some '\x7b')
    (hjl : j.getLast? = some '\x7d') (a b : List Char)
    (ha : BraceFreeP a) (hb : BraceFreeP b) :
    ∃ a2 b2, fenceStep (a ++ (j ++ b)) = a2 ++ (j ++ b2) ∧
      BraceFreeP a2 ∧ BraceFreeP b2 := by
  obtain ⟨a1, b1, he1, ha1, hb1⟩ := fenceFront_core hj hjl a b ha hb
  obtain ⟨a2, b2, he2, ha2, hb2⟩ := fenceBack_core hj hjl a1 b1 ha1 hb1
  exact ⟨a2, b2, by rw [fenceStep, he1, he2], ha2, hb2⟩

theorem fenceLoop_core {j : List Char} (hj : j.head? = some '\x7b')
    (hjl : j.getLast? = some '\x7d') :
    ∀ (n : Nat) (a b : List Char), BraceFreeP a → BraceFreeP b →
      ∃ a2 b2, fenceLoop n (a ++ (j ++ b)) = a2 ++ (j ++ b2) ∧
        BraceFreeP a2 ∧ BraceFreeP b2 := by
  intro n
  induction n with
  | zero => exact fun a b ha hb => ⟨a, b, rfl, ha, hb⟩
  | succ m ih =>
    intro a b ha hb
    rw [fenceLoop]
    by_cases hfix : fenceStep (a ++ (j ++ b)) = a ++ (j ++ b)
    · exact ⟨a, b, by rw [if_pos hfix], ha, hb⟩
    · rw [if_neg hfix]
      obtain ⟨a1, b1, he1, ha1, hb1⟩ := fenceStep_core hj hjl a b ha hb
      obtain ⟨a2, b2, he2, ha2, hb2⟩ := ih a1 b1 ha1 hb1
      exact ⟨a2, b2, by rw [he1, he2], ha2, hb2⟩

theorem firstIdx_append_not_mem {c : Char} {a : List Char}
    (h : ∀ d ∈ a, d ≠ c) (t : List Char) {i : Nat}
    (ht : firstIdx c t = some i) :
    firstIdx c (a ++ t) = some (a.length + i) := by
  induction a with
  | nil => simpa using ht
  | cons d a2 ih =>
    have hd : ¬d = c := h d (by simp)
    have ih2 := ih (fun e he => h e (by simp [he]))
    rw [List.cons_append, firstIdx, if_neg hd, ih2]
    simp only [Option.map_some', List.length_cons, Option.some.injEq]
    omega

theorem firstIdx_core {j : List Char} (hj : j.head? = some '\x7b')
    (a b : List Char) (ha : ∀ d ∈ a, d ≠ '\x7b') :
    firstIdx '\x7b' (a ++ (j ++ b)) = some a.length := by
  obtain ⟨j2, hj2⟩ : ∃ j2, j = '\x7b' :: j2 := by
    cases j with
    | nil => cases hj
    | cons x xs => cases hj; exact ⟨xs, rfl⟩
  have h0 : firstIdx '\x7b' (j ++ b) = some 0 := by
    rw [hj2, List.cons_append, firstIdx, if_pos rfl]
  have := firstIdx_append_not_mem ha _ h0
  simpa using this

theorem lastIdx_core {j : List Char} (hjl : j.getLast? = some '\x7d')
    (a b : List Char) (hb : ∀ d ∈ b, d ≠ '\x7d') :
    lastIdx '\x7d' (a ++ (j ++ b)) = some (a.length + j.length - 1) := by
  have hjne : j ≠ [] := by
    intro hn
    rw [hn] at hjl
    cases hjl
  obtain ⟨jr, hjr⟩ : ∃ jr, j.reverse = '\x7d' :: jr := by
    have hrev : j.reverse.head? = some '\x7d' := by
      rw [List.head?_reverse]; exact hjl
    cases hr : j.reverse with
    | nil => rw [hr] at hrev; cases hrev
    | cons x xs =>
      rw [hr] at hrev
      cases hrev
      exact ⟨xs, rfl⟩
  have h0 : firstIdx '\x7d' (j.reverse ++ a.reverse) = some 0 := by
    rw [hjr, List.cons_append, firstIdx, if_pos rfl]
  have h1 : firstIdx '\x7d' (b.reverse ++ (j.reverse ++ a.reverse)) =
      some (b.reverse.length + 0) :=
    firstIdx_append_not_mem
      (fun d hd => hb d (List.mem_reverse.mp hd)) _ h0
  rw [lastIdx]
  rw [show (a ++ (j ++ b)).reverse = b.reverse ++ (j.reverse ++ a.reverse)
    from by simp [List.reverse_append]]
  rw [h1]
  simp only [Option.map_some', List.length_reverse, List.length_append,
    Option.some.injEq]
  have hj1 : 1 ≤ j.length := by
    cases j with
    | nil => exact absurd rfl hjne
    | cons x xs => simp
  omega

theorem braceSlice_core {j : List Char} (hj : j.head? = some '\x7b')
    (hjl : j.getLast? = some '\x7d') (a b : List Char)
    (ha : BraceFreeP a) (hb : BraceFreeP b) :
    braceSlice (a ++ (j ++ b)) = j := by
  have hjlen : 2 ≤ j.length := by
    cases j with
    | nil => cases hj
    | cons c j2 =>
      cases j2 with
      | nil =>
        cases hj
        cases hjl
      | cons d j3 => simp [List.length_cons]
  have h1 := firstIdx_core hj a b (fun d hd => (ha d hd).1)
  have h2 := lastIdx_core hjl a b (fun d hd => (hb d hd).2)
  rw [braceSlice, h1, h2]
  show (if a.length < a.length + j.length - 1 then
      List.take (a.length + j.length - 1 - a.length + 1)
        (List.drop a.length (a ++ (j ++ b)))
    else a ++ (j ++ b)) = j
  rw [if_pos (by omega)]
  rw [List.drop_left]
  rw [show a.length + j.length - 1 - a.length + 1 = j.length from by omega]
  exact List.take_left j b

theorem pstrip_brace {j : List Char} (hj : j.head? = some '\x7b')
    (hjl : j.getLast? = some '\x7d') : pstrip j = j := by
  rw [pstrip]
  rw [lstrip_noop j (by
    intro c hc
    rw [hj] at hc
    cases hc
    decide)]
  exact rstrip_noop j (by
    intro c hc
    rw [hjl] at hc
    cases hc
    decide)

/-- Core preservation through the whole normalizer: if the input is a
brace-free prefix, then a span `j` beginning with `\x7b` and ending with
`\x7d`, then a brace-free suffix, `_clean_json_string` returns exactly `j`. -/
theorem clean_core {j : List Char} (hj : j.head? = some '\x7b')
    (hjl : j.getLast? = some '\x7d') (a b : List Char)
    (ha : BraceFreeP a) (hb : BraceFreeP b) :
    clean_json_string (a ++ (j ++ b)) = j := by
  rw [clean_json_string, pstrip_core a j b hj hjl]
  obtain ⟨a2, b2, he, ha2, hb2⟩ := fenceLoop_core hj hjl 10
    (lstrip a) (rstrip b)
    (braceFreeP_of_subset (lstrip_subset a) ha)
    (braceFreeP_of_subset (rstrip_subset b) hb)
  rw [he, braceSlice_core hj hjl a2 b2 ha2 hb2, pstrip_brace hj hjl]

theorem parseValue_backtick (f : Nat) (rest : List Char) :
    parseValue f ('\x60' :: rest) = none := by
  cases f with
  | zero => rfl
  | succ f2 => rfl

theorem json_loads_cons_backtick (rest : List Char) :
    json_loads ('\x60' :: rest) = none := by
  simp [json_loads, skipWs, List.dropWhile_cons, jsonWs, parseValue_backtick]

/-! Claim C8: fence-wrapped valid JSON objects. -/

/-- C8: for every inner text `j` that is a JSON object (it starts with
`\x7b`, ends with `\x7d`, and parses strictly), wrapping it in a leading
markdown fence — with or without the `json` language tag — and a trailing
fence still decodes to the inner object: strategy 1 fails on the fenced
text, the normalizer strips the fences, and strategy 2 parses the
remainder. -/
theorem c8_fenced_object (j : List Char) (v : Json)
    (hj : j.head? = some '\x7b') (hjl : j.getLast? = some '\x7d')
    (hv : json_loads j = some v) :
    parse_json_safely (fenceJsonNl ++ (j ++ fenceBack4)) = some v ∧
    parse_json_safely (fenceNl ++ (j ++ fenceBack4)) = some v := by
  have hclean1 : clean_json_string (fenceJsonNl ++ (j ++ fenceBack4)) = j :=
    clean_core hj hjl _ _ (by decide) (by decide)
  have hclean2 : clean_json_string (fenceNl ++ (j ++ fenceBack4)) = j :=
    clean_core hj hjl _ _ (by decide) (by decide)
  have h1 : json_loads (fenceJsonNl ++ (j ++ fenceBack4)) = none := by
    rw [show fenceJsonNl ++ (j ++ fenceBack4) =
      '\x60' :: (['\x60', '\x60', 'j', 's', 'o', 'n', '\n'] ++ (j ++ fenceBack4))
      from rfl]
    exact json_loads_cons_backtick _
  have h2 : json_loads (fenceNl ++ (j ++ fenceBack4)) = none := by
    rw [show fenceNl ++ (j ++ fenceBack4) =
      '\x60' :: (['\x60', '\x60', '\n'] ++ (j ++ fenceBack4)) from rfl]
    exact json_loads_cons_backtick _
  constructor
  · simp [parse_json_safely, h1, hclean1, hv]
  · simp [parse_json_safely, h2, hclean2, hv]

/-- Witness for C8 at the fenced input `"```json\n\x7b"a": 1\x7d\n```"`. -/
theorem c8_fenced_object_witness :
    parse_json_safely "```json\n\x7b\"a\": 1\x7d\n```".toList =
      some (Json.obj [("a", Json.num "1")]) := by
  have h := c8_fenced_object "\x7b\"a\": 1\x7d".toList
    (Json.obj [("a", Json.num "1")]) rfl rfl rfl
  exact h.1

/-! Claim C7: a JSON object surrounded by brace-free prose. -/

/-- C7 counterexample: the input `[\x7b"a": 1\x7d]` consists of a valid JSON
object preceded by `[` and followed by `]` — prose containing no braces —
yet `decode` returns the array parsed from the whole input by strategy 1,
not the object spanning the first `\x7b` to the last `\x7d` that the claim
requires. -/
theorem c7_counterexample :
    parse_json_safely "[\x7b\"a\": 1\x7d]".toList =
      some (Json.arr [Json.obj [("a", Json.num "1")]]) ∧
    parse_json_safely "[\x7b\"a\": 1\x7d]".toList ≠
      some (Json.obj [("a", Json.num "1")]) := by
  have h1 : parse_json_safely "[\x7b\"a\": 1\x7d]".toList =
      some (Json.arr [Json.obj [("a", Json.num "1")]]) := rfl
  refine ⟨h1, ?_⟩
  rw [h1]
  intro h
  exact Json.noConfusion (Option.some.inj h)

/-- C7 (amended): for every input of the form prose + object + prose where
the surrounding prose contains no brace, the inner span starts with `\x7b`,
ends with `\x7d` and parses strictly, and the full input is not itself valid
JSON (strategy 1 fails — the exception the counterexample exhibits),
`decode` recovers exactly the inner object: the normalizer slices to the
span from the first `\x7b` to the last `\x7d` and strategy 2 parses it. -/
theorem c7_prose_wrapped (p j s : List Char) (v : Json)
    (hp : BraceFreeP p) (hs : BraceFreeP s)
    (hj : j.head? = some '\x7b') (hjl : j.getLast? = some '\x7d')
    (hv : json_loads j = some v)
    (hfull : json_loads (p ++ (j ++ s)) = none) :
    parse_json_safely (p ++ (j ++ s)) = some v := by
  have hclean := clean_core hj hjl p s hp hs
  simp [parse_json_safely, hfull, hclean, hv]

/-- Witness for C7 at the spec's example
`Sure, here you go:\n\x7b"a": 1\x7d\nHope that helps!`. -/
theorem c7_prose_wrapped_witness :
    parse_json_safely
        "Sure, here you go:\n\x7b\"a\": 1\x7d\nHope that helps!".toList =
      some (Json.obj [("a", Json.num "1")]) := by
  have h := c7_prose_wrapped "Sure, here you go:\n".toList
    "\x7b\"a\": 1\x7d".toList "\nHope that helps!".toList
    (Json.obj [("a", Json.num "1")]) (by decide) (by decide) rfl rfl rfl rfl
  exact h

theorem lstrip_idem (t : List Char) : lstrip (lstrip t) = lstrip t := by
  unfold lstrip
  exact List.dropWhile_idempotent pyWs t

theorem rstrip_idem (t : List Char) : rstrip (rstrip t) = rstrip t := by
  unfold rstrip
  rw [List.reverse_reverse, List.dropWhile_idempotent]

theorem lstrip_head_not_ws {t : List Char} {c : Char}
    (h : (lstrip t).head? = some c) : pyWs c = false := by
  have h2 := List.head?_dropWhile_not pyWs t
  unfold lstrip at h
  rw [h] at h2
  simpa using h2

theorem rstrip_head?_eq {t : List Char} (h : rstrip t ≠ []) :
    (rstrip t).head? = t.head? := by
  have hsuf : t.reverse.dropWhile pyWs <:+ t.reverse :=
    List.dropWhile_suffix pyWs
  obtain ⟨w, hw⟩ := hsuf
  have h2 := congrArg List.reverse hw
  rw [List.reverse_append, List.reverse_reverse] at h2
  have h3 : rstrip t ++ w.reverse = t := h2
  conv_rhs => rw [← h3]
  rw [head?_append_left _ h]

theorem pstrip_idem (t : List Char) : pstrip (pstrip t) = pstrip t := by
  unfold pstrip
  have h1 : lstrip (rstrip (lstrip t)) = rstrip (lstrip t) := by
    cases hy : rstrip (lstrip t) with
    | nil => rfl
    | cons c cs =>
      apply lstrip_cons_not
      have hne : rstrip (lstrip t) ≠ [] := by rw [hy]; simp
      have hh := rstrip_head?_eq hne
      rw [hy] at hh
      exact lstrip_head_not_ws hh.symm
  rw [h1, rstrip_idem]

theorem fenceFront_pstrip {t : List Char} (h : pstrip t = t) :
    pstrip (fenceFront t) = fenceFront t := by
  unfold fenceFront
  split
  · exact pstrip_idem _
  split
  · exact pstrip_idem _
  split
  · exact pstrip_idem _
  split
  · exact pstrip_idem _
  exact h

theorem fenceBack_pstrip {t : List Char} (h : pstrip t = t) :
    pstrip (fenceBack t) = fenceBack t := by
  unfold fenceBack
  split
  · exact pstrip_idem _
  split
  · exact pstrip_idem _
  exact h

theorem fenceStep_pstrip {t : List Char} (h : pstrip t = t) :
    pstrip (fenceStep t) = fenceStep t :=
  fenceBack_pstrip (fenceFront_pstrip h)

theorem fenceLoop_pstrip (n : Nat) {t : List Char} (h : pstrip t = t) :
    pstrip (fenceLoop n t) = fenceLoop n t := by
  induction n generalizing t with
  | zero => exact h
  | succ m ih =>
    rw [fenceLoop]
    by_cases hfix : fenceStep t = t
    · rw [if_pos hfix]
      exact h
    · rw [if_neg hfix]
      exact ih (fenceStep_pstrip h)

theorem startswith_trans {p q t : List Char}
    (h1 : startswith p q = true) (h2 : startswith q t = true) :
    startswith p t = true := by
  rw [startswith, List.isPrefixOf_iff_prefix] at h1 h2 ⊢
  exact h1.trans h2

theorem fenceStep_eq_of_not_fence {r : List Char}
    (h1 : startswith fence3 r = false) (h2 : endswith fence3 r = false) :
    fenceStep r = r := by
  have hfront : ∀ pat : List Char, startswith fence3 pat = true →
      ¬startswith pat r = true := by
    intro pat hpat hc
    rw [startswith_trans hpat hc] at h1
    cases h1
  have hback : ¬endswith fenceBack4 r = true := by
    intro hc
    have hc2 : startswith fenceBack4.reverse r.reverse = true := hc
    have h0 : startswith fence3.reverse fenceBack4.reverse = true := by decide
    have h3 : endswith fence3 r = true := startswith_trans h0 hc2
    rw [h3] at h2
    cases h2
  have hf : fenceFront r = r := by
    unfold fenceFront
    rw [if_neg (hfront _ (by decide)), if_neg (hfront _ (by decide)),
      if_neg (hfront _ (by decide)), if_neg (hfront _ (by decide))]
  have hb : fenceBack r = r := by
    unfold fenceBack
    rw [if_neg hback, if_neg (by
      intro hc
      rw [hc] at h2
      cases h2)]
  rw [fenceStep, hf, hb]

theorem fenceLoop_fix (n : Nat) {r : List Char} (h : fenceStep r = r) :
    fenceLoop n r = r := by
  induction n with
  | zero => rfl
  | succ m ih =>
    rw [fenceLoop]
    simp [h]

theorem firstIdx_drop_head {c : Char} {w : List Char} {s : Nat}
    (h : firstIdx c w = some s) : (w.drop s).head? = some c := by
  induction w generalizing s with
  | nil => cases h
  | cons x xs ih =>
    rw [firstIdx] at h
    by_cases hx : x = c
    · rw [if_pos hx] at h
      cases h
      simp [hx]
    · rw [if_neg hx] at h
      rcases ho : firstIdx c xs with _ | i
      · rw [ho] at h
        cases h
      · rw [ho] at h
        simp only [Option.map_some', Option.some.injEq] at h
        subst h
        simpa using ih ho

theorem firstIdx_getElem {c : Char} {w : List Char} {s : Nat}
    (h : firstIdx c w = some s) : w[s]? = some c ∧ s < w.length := by
  induction w generalizing s with
  | nil => cases h
  | cons x xs ih =>
    rw [firstIdx] at h
    by_cases hx : x = c
    · rw [if_pos hx] at h
      cases h
      simp [hx]
    · rw [if_neg hx] at h
      rcases ho : firstIdx c xs with _ | i
      · rw [ho] at h
        cases h
      · rw [ho] at h
        simp only [Option.map_some', Option.some.injEq] at h
        subst h
        obtain ⟨hg, hl⟩ := ih ho
        exact ⟨by simpa using hg, by simpa using hl⟩

theorem head?_take_pos {l : List Char} {n : Nat} (h : 0 < n) :
    (l.take n).head? = l.head? := by
  cases l with
  | nil => simp
  | cons x xs =>
    cases n with
    | zero => cases h
    | succ m => simp

theorem lastIdx_getElem {c : Char} {w : List Char} {e : Nat}
    (h : lastIdx c w = some e) : w[e]? = some c ∧ e < w.length := by
  rw [lastIdx] at h
  rcases ho : firstIdx c w.reverse with _ | i
  · rw [ho] at h
    cases h
  · rw [ho] at h
    simp only [Option.map_some', Option.some.injEq] at h
    obtain ⟨hg, hl⟩ := firstIdx_getElem ho
    rw [List.length_reverse] at hl
    rw [List.getElem?_reverse (by simpa using hl)] at hg
    subst h
    exact ⟨hg, by omega⟩

/-! Claim C6: idempotence of the normalizer. -/

/-- C6 counterexample: on an input of 63 backticks the bounded 10-pass fence
loop removes only 60 of them, so `normalize` returns three backticks, and a
second run of `normalize` removes those too — `normalize` is not
idempotent. -/
theorem c6_counterexample :
    clean_json_string (List.replicate 63 '\x60') = ['\x60', '\x60', '\x60'] ∧
    clean_json_string (clean_json_string (List.replicate 63 '\x60')) = [] ∧
    clean_json_string (clean_json_string (List.replicate 63 '\x60')) ≠
      clean_json_string (List.replicate 63 '\x60') :=
  ⟨rfl, rfl, by decide⟩

/-- C6 (amended): `normalize` is idempotent on every input whose normalized
output does not itself begin or end with a fence marker (three backticks) —
equivalently, on every input whose fence stripping settles within the
10-pass budget; inputs such as 63 consecutive backticks, whose residue still
carries a fence marker, are the only exceptions. -/
theorem c6_idempotent_amended (t : List Char)
    (h1 : startswith fence3 (clean_json_string t) = false)
    (h2 : endswith fence3 (clean_json_string t) = false) :
    clean_json_string (clean_json_string t) = clean_json_string t := by
  have hw : pstrip (fenceLoop 10 (pstrip t)) = fenceLoop 10 (pstrip t) :=
    fenceLoop_pstrip 10 (pstrip_idem t)
  by_cases hfire : braceSlice (fenceLoop 10 (pstrip t)) = fenceLoop 10 (pstrip t)
  · have hr : clean_json_string t = fenceLoop 10 (pstrip t) := by
      rw [clean_json_string, hfire, hw]
    rw [hr] at h1 h2 ⊢
    rw [clean_json_string, hw,
      fenceLoop_fix 10 (fenceStep_eq_of_not_fence h1 h2), hfire, hw]
  · rcases hfi : firstIdx '\x7b' (fenceLoop 10 (pstrip t)) with _ | s
    · exact absurd (by rw [braceSlice, hfi]) hfire
    rcases hli : lastIdx '\x7d' (fenceLoop 10 (pstrip t)) with _ | e
    · exact absurd (by rw [braceSlice, hfi, hli]) hfire
    by_cases hslt : s < e
    case neg =>
      exact absurd (by rw [braceSlice, hfi, hli]; simp [hslt]) hfire
    have hbs : braceSlice (fenceLoop 10 (pstrip t)) =
        ((fenceLoop 10 (pstrip t)).drop s).take (e - s + 1) := by
      rw [braceSlice, hfi, hli]
      simp [hslt]
    obtain ⟨hge, hel⟩ := lastIdx_getElem hli
    have hhead : (((fenceLoop 10 (pstrip t)).drop s).take (e - s + 1)).head? =
        some '\x7b' := by
      rw [head?_take_pos (by omega)]
      exact firstIdx_drop_head hfi
    have hlast : (((fenceLoop 10 (pstrip t)).drop s).take (e - s + 1)).getLast? =
        some '\x7d' := by
      have hlen : ((((fenceLoop 10 (pstrip t)).drop s).take (e - s + 1))).length =
          e - s + 1 := by
        simp only [List.length_take, List.length_drop]
        omega
      rw [List.getLast?_eq_getElem?, hlen]
      rw [show e - s + 1 - 1 = e - s from by omega]
      rw [List.getElem?_take, if_pos (by omega), List.getElem?_drop]
      rw [show s + (e - s) = e from by omega]
      exact hge
    have hr : clean_json_string t =
        ((fenceLoop 10 (pstrip t)).drop s).take (e - s + 1) := by
      rw [clean_json_string, hbs, pstrip_brace hhead hlast]
    rw [hr]
    have hcc := clean_core hhead hlast [] []
      (fun c hc => absurd hc (List.not_mem_nil c))
      (fun c hc => absurd hc (List.not_mem_nil c))
    simpa using hcc

/-- Witness for C6 (amended) at a prose-wrapped input whose normalized form
is brace-delimited and fence-free. -/
theorem c6_idempotent_amended_witness :
    startswith fence3 (clean_json_string "x \x7b\"a\": 1\x7d y".toList) = false ∧
    endswith fence3 (clean_json_string "x \x7b\"a\": 1\x7d y".toList) = false ∧
    clean_json_string (clean_json_string "x \x7b\"a\": 1\x7d y".toList) =
      clean_json_string "x \x7b\"a\": 1\x7d y".toList :=
  ⟨by decide, by decide,
    c6_idempotent_amended "x \x7b\"a\": 1\x7d y".toList (by decide) (by decide)⟩

theorem dictLookup_map_set {m : List (String × Json)} {k : String} (v : Json)
    (hc : dictContains k m = true) :
    dictLookup k (m.map (fun p => if p.1 == k then (p.1, v) else p)) = some v := by
  induction m with
  | nil => cases hc
  | cons p rest ih =>
    obtain ⟨a, b⟩ := p
    rw [List.map_cons]
    by_cases hak : a = k
    · subst hak
      have hhead : (if ((a, b).1 == a : Bool) then ((a, b).1, v) else (a, b)) =
          (a, v) := by simp
      rw [hhead, dictLookup, if_pos rfl]
    · have hbeq : (a == k) = false := by simp [hak]
      have hhead : (if ((a, b).1 == k : Bool) then ((a, b).1, v) else (a, b)) =
          (a, b) := by simp [hbeq]
      rw [hhead, dictLookup, if_neg hak]
      exact ih (by simpa [dictContains, hbeq] using hc)

theorem dictLookup_append_new {m : List (String × Json)} {k : String} (v : Json)
    (hc : dictContains k m = false) :
    dictLookup k (m ++ [(k, v)]) = some v := by
  induction m with
  | nil => simp [dictLookup]
  | cons p rest ih =>
    obtain ⟨a, b⟩ := p
    simp only [dictContains, List.any_cons, Bool.or_eq_false_iff] at hc
    obtain ⟨hbeq, hrest⟩ := hc
    have hak : ¬a = k := by simpa using hbeq
    rw [List.cons_append, dictLookup, if_neg hak]
    exact ih hrest

theorem dictLookup_insert_self (m : List (String × Json)) (k : String) (v : Json) :
    dictLookup k (dictInsert m k v) = some v := by
  rw [dictInsert]
  by_cases hc : dictContains k m = true
  · rw [if_pos hc]
    exact dictLookup_map_set v hc
  · rw [if_neg hc]
    exact dictLookup_append_new v (by simpa using hc)

theorem dictLookup_insert_other {k1 k : String} (h : k1 ≠ k)
    (m : List (String × Json)) (v : Json) :
    dictLookup k1 (dictInsert m k v) = dictLookup k1 m := by
  rw [dictInsert]
  by_cases hc : dictContains k m = true
  · rw [if_pos hc]
    clear hc
    induction m with
    | nil => rfl
    | cons p rest ih =>
      obtain ⟨a, b⟩ := p
      rw [List.map_cons]
      by_cases hak : a = k1
      · subst hak
        have hbeq : (a == k) = false := by simp [h]
        have hhead : (if ((a, b).1 == k : Bool) then ((a, b).1, v) else (a, b)) =
            (a, b) := by simp [hbeq]
        rw [hhead, dictLookup, if_pos rfl, dictLookup, if_pos rfl]
      · by_cases hbk : (a == k) = true
        · have hhead : (if ((a, b).1 == k : Bool) then ((a, b).1, v) else (a, b)) =
              (a, v) := by simp [hbk]
          rw [hhead, dictLookup, if_neg hak, dictLookup, if_neg hak, ih]
        · have hbeq : (a == k) = false := by simpa using hbk
          have hhead : (if ((a, b).1 == k : Bool) then ((a, b).1, v) else (a, b)) =
              (a, b) := by simp [hbeq]
          rw [hhead, dictLookup, if_neg hak, dictLookup, if_neg hak, ih]
  · rw [if_neg hc]
    clear hc
    induction m with
    | nil => simp [dictLookup, Ne.symm h]
    | cons p rest ih =>
      obtain ⟨a, b⟩ := p
      by_cases hak : a = k1
      · subst hak
        simp [dictLookup]
      · rw [List.cons_append, dictLookup, if_neg hak, dictLookup, if_neg hak]
        exact ih

/-! Claim C10: missing required fields produce a success with warnings. -/

/-- C10: when decoding succeeds with a mapping that lacks one or more of the
six required fields, `generate_proposal` still returns a success result: the
final mapping carries `status = "success"` and a `_warnings` entry whose
`missing_fields` lists exactly the missing field names. -/
theorem c10_missing_fields_warning (now : String) (t : List Char)
    (d : List (String × Json))
    (h1 : parse_json_safely t = some (Json.obj d))
    (h2 : missingFields d ≠ []) :
    generate_proposal_postparse now t = .success (finalizeSuccess now d) ∧
    dictLookup "status" (finalizeSuccess now d) = some (Json.str "success") ∧
    dictLookup "_warnings" (finalizeSuccess now d) = some (Json.obj
      [("missing_fields", Json.arr ((missingFields d).map Json.str)),
       ("message", Json.str
         "Some required sections are missing from the generated proposal")]) := by
  refine ⟨by simp [generate_proposal_postparse, h1], ?_, ?_⟩
  · rw [finalizeSuccess]
    simp only [h2, ne_eq, not_false_iff, if_true]
    rw [dictLookup_insert_other (by decide), dictLookup_insert_other (by decide),
      dictLookup_insert_other (by decide), dictLookup_insert_other (by decide),
      dictLookup_insert_self]
  · rw [finalizeSuccess]
    simp only [h2, ne_eq, not_false_iff, if_true]
    rw [dictLookup_insert_other (by decide), dictLookup_insert_other (by decide),
      dictLookup_insert_other (by decide), dictLookup_insert_other (by decide),
      dictLookup_insert_other (by decide), dictLookup_insert_self]

/-- Witness for C10 at the decoded mapping `\x7b"x": 1\x7d`, which is missing
all six required fields. -/
theorem c10_missing_fields_warning_witness :
    missingFields [("x", Json.num "1")] ≠ [] ∧
    dictLookup "status" (finalizeSuccess "T" [("x", Json.num "1")]) =
      some (Json.str "success") ∧
    dictLookup "_warnings" (finalizeSuccess "T" [("x", Json.num "1")]) =
      some (Json.obj
        [("missing_fields", Json.arr ((missingFields [("x", Json.num "1")]).map Json.str)),
         ("message", Json.str
           "Some required sections are missing from the generated proposal")]) := by
  have h := c10_missing_fields_warning "T" "\x7b\"x\": 1\x7d".toList
    [("x", Json.num "1")] rfl (by decide)
  exact ⟨by decide, h.2.1, h.2.2⟩

end PdfAnalysis
